import Mathlib

/-!
# Verification of the ch_sync replication engine

A shallow embedding of the per-table sync engine of the `ch_sync` repository
(Go): dedup-key derivation (`deduplicator.go`), checkpoint state persistence
(`state.go`), time-range resolution, smart-mode strategy selection, realtime
window construction, day segmentation, the segment sync loop and insert-time
type coercion (`syncer.go`).

Modelling conventions:
* Go `time.Time` instants are nanoseconds since the Unix epoch (`Int`);
  `t.After u` is `u < t`, `t.Before u` is `t < u`, `d := a.Sub b` is `a - b`.
* Go `time.Location`s are modelled as fixed UTC offsets (an `Int` number of
  nanoseconds); calendar-day arithmetic is exact under a fixed offset.
* Go `string` and `[]byte` are byte strings; the Go conversion
  `string(b)` is the identity on the bytes, so both are modelled as `String`
  and the conversion as the identity.
* Go `map[string]interface{}` row records are association lists; Go map
  indexing yields the zero value (`nil` interface) for an absent key, which
  the embedding mirrors by returning the null value.
* `float64` values are modelled by the exact rational they denote; `%f`
  formatting rounds half-to-even as Go's `strconv` does.
* Fallible file-system effects (`os.WriteFile`, `os.Rename`) are modelled by
  an explicit file-system map plus injected success/failure flags.
-/

namespace ChSync

/-! ## Time constants (nanoseconds since the Unix epoch) -/

def nsPerSec : Int := 1000000000

def nsPerMs : Int := 1000000

def nsPerMin : Int := 60 * nsPerSec

def nsPerHour : Int := 3600 * nsPerSec

def nsPerDay : Int := 86400 * nsPerSec

/-- `time.Date(1900, 1, 1, 0, 0, 0, 0, time.UTC)`: 1900-01-01T00:00:00Z. -/
def minValidTime : Int := -2208988800 * nsPerSec

/-- `time.Date(2262, 4, 11, 23, 47, 16, 0, time.UTC)`, the upper coercion
bound in `insertBatch`. -/
def coerceMaxTime : Int := 9223372036 * nsPerSec

/-- The Go zero `time.Time`: 0001-01-01T00:00:00Z (`t.IsZero()`). -/
def goZeroTime : Int := -62135596800 * nsPerSec

/-- `time.Date(1970, 1, 1, 0, 0, 0, 0, time.UTC)`, the substitute value. -/
def epoch1970 : Int := 0

/-! ## Rendering helpers (Go `fmt`/`time.Format` behaviour) -/

/-- Left-pad the decimal rendering of `n` with zeros to width `w`. -/
def padNum (w n : Nat) : String :=
  let s := toString n
  if s.length < w then String.mk (List.replicate (w - s.length) '0') ++ s else s

/-- Drop trailing `'0'` characters (RFC3339Nano fraction trimming). -/
def trimZeros (s : String) : String :=
  String.mk (s.toList.reverse.dropWhile (fun c => c = '0')).reverse

/-- Civil date from a day number relative to 1970-01-01 (proleptic
Gregorian), returning `(year, month, day)`. -/
def civilFromDays (z0 : Int) : Int × Int × Int :=
  let z := z0 + 719468
  let era := Int.ediv z 146097
  let doe := z - era * 146097
  let yoe := Int.ediv (doe - Int.ediv doe 1460 + Int.ediv doe 36524 - Int.ediv doe 146096) 365
  let y := yoe + era * 400
  let doy := doe - (365 * yoe + Int.ediv yoe 4 - Int.ediv yoe 100)
  let mp := Int.ediv (5 * doy + 2) 153
  let d := doy - Int.ediv (153 * mp + 2) 5 + 1
  let m := mp + (if mp < 10 then 3 else -9)
  (y + (if m ≤ 2 then 1 else 0), m, d)

/-- Render the zone suffix of RFC3339 for a fixed offset of `off`
nanoseconds: `"Z"` at UTC, otherwise `±hh:mm`. -/
def fmtZone (off : Int) : String :=
  if off = 0 then "Z"
  else
    let sign := if off < 0 then "-" else "+"
    let mins := (Int.ediv |off| nsPerMin).toNat
    sign ++ padNum 2 (mins / 60) ++ ":" ++ padNum 2 (mins % 60)

/-- `time.Time.Format(time.RFC3339Nano)` for the instant `t` carried in a
fixed-offset location `off` (both in nanoseconds): nanosecond-precision
ISO-8601 with the trailing zeros of the fraction trimmed. -/
def fmtRFC3339Nano (off t : Int) : String :=
  let lcl := t + off
  let days := Int.ediv lcl nsPerDay
  let nsod := (Int.emod lcl nsPerDay).toNat
  let ymd := civilFromDays days
  let frac := nsod % 1000000000
  let secOfDay := nsod / 1000000000
  let fracStr := if frac = 0 then "" else "." ++ trimZeros (padNum 9 frac)
  padNum 4 ymd.1.toNat ++ "-" ++ padNum 2 ymd.2.1.toNat ++ "-" ++ padNum 2 ymd.2.2.toNat
    ++ "T" ++ padNum 2 (secOfDay / 3600) ++ ":" ++ padNum 2 (secOfDay / 60 % 60)
    ++ ":" ++ padNum 2 (secOfDay % 60) ++ fracStr ++ fmtZone off

/-- Round a rational to the nearest integer, ties to even (the rounding Go's
`strconv` fixed-precision formatting applies). -/
def roundHalfEven (q : ℚ) : Int :=
  let f := ⌊q⌋
  let r := q - f
  if r < 1/2 then f
  else if 1/2 < r then f + 1
  else if f % 2 = 0 then f else f + 1

/-- Go `fmt.Sprintf("%f", v)`: decimal with exactly six fraction digits. -/
def fmtFloat6 (q : ℚ) : String :=
  let sign := if q < 0 then "-" else ""
  let n := (roundHalfEven (|q| * 1000000)).toNat
  sign ++ toString (n / 1000000) ++ "." ++ padNum 6 (n % 1000000)

/-- The `shopspring/decimal` canonical rendering of the value
`coeff * 10 ^ exp` (`Decimal.String()`). -/
def decimalString (coeff exp : Int) : String :=
  if 0 ≤ exp then toString (coeff * 10 ^ exp.toNat)
  else
    let k := (-exp).toNat
    let sign := if coeff < 0 then "-" else ""
    let n := coeff.natAbs
    sign ++ toString (n / 10 ^ k) ++ "." ++ padNum k (n % 10 ^ k)

/-! ## Row values and records -/

/-- The closed set of dynamically-tagged values a scanned row cell can hold
(the `interface{}` cases distinguished by `Deduplicator.formatValue` and
`UniversalSyncer.insertBatch`). `vtime` carries the instant and its fixed
location offset; `vother` carries the `fmt.Sprintf("%v", v)` rendering Go
produces for any remaining type. -/
inductive GoValue where
  | vnull
  | vtime (t : Int) (off : Int)
  | vstring (s : String)
  | vbytes (s : String)
  | vint (i : Int)
  | vuint (n : Nat)
  | vfloat (q : ℚ)
  | vbool (b : Bool)
  | vdecimal (coeff : Int) (exp : Int)
  | vother (rendering : String)
deriving Repr, DecidableEq, Inhabited

/-- A scanned row: Go `map[string]interface{}` as an association list. -/
abbrev Record := List (String × GoValue)

/-- Go map indexing `record[key]`: the zero value (`nil` interface, i.e.
null) when the key is absent. -/
def goMapGet (record : Record) (key : String) : GoValue :=
  match record.find? (fun p => p.1 == key) with
  | some p => p.2
  | none => .vnull

/-! ## Deduplicator (src/unnamed/part_000) -/

/-- `Deduplicator.formatValue`: per-value rendering of a dedup component. -/
def formatValue : GoValue → String
  | .vnull => "<NULL>"
  | .vtime t off => fmtRFC3339Nano off t
  | .vstring s => s
  | .vbytes s => s
  | .vint i => toString i
  | .vuint n => toString n
  | .vfloat q => fmtFloat6 q
  | .vbool b => if b then "true" else "false"
  | .vdecimal c e => decimalString c e
  | .vother r => r

/-- `Deduplicator.buildKeyFromValues`: render each value and join with
`"|"` (`strings.Join`). -/
def buildKeyFromValues (values : List GoValue) : String :=
  String.intercalate "|" (values.map formatValue)

/-- `Deduplicator.BuildKey`: look the dedup columns up in the record (Go map
indexing) and build the composite key. -/
def BuildKey (dedupeKeys : List String) (record : Record) : String :=
  buildKeyFromValues (dedupeKeys.map (goMapGet record))

/-! ## Time segments and the day segmenter (src/unnamed/part_004) -/

/-- `TimeSegment`: a `[Start, End)` window of instants. -/
structure TimeSegment where
  Start : Int
  End : Int
deriving Repr, DecidableEq, Inhabited

/-- `TimeRange`: the resolved sync window. -/
structure TimeRange where
  Start : Int
  End : Int
deriving Repr, DecidableEq, Inhabited

/-- `time.Date(y, m, d, 23, 59, 59, 999999999, loc).Add(1)` for the calendar
day of `t` in the fixed-offset location `off`: the next local midnight
strictly after `t`. -/
def nextLocalMidnight (off t : Int) : Int :=
  ((t + off) / nsPerDay + 1) * nsPerDay - off

/-- `t` is a local midnight in the fixed-offset location `off`. -/
def isLocalMidnight (off t : Int) : Prop := (t + off) % nsPerDay = 0

/-- The emitted segment's end in one iteration of `segmentTimeRange`'s loop:
`dayEnd`, the next local midnight of `current`, clamped to the range end
(`if dayEnd.After(timeRange.End) { dayEnd = timeRange.End }`). -/
def segNext (off bEnd current : Int) : Int :=
  if bEnd < nextLocalMidnight off current then bEnd else nextLocalMidnight off current

/-- The `for current.Before(timeRange.End)` loop of
`UniversalSyncer.segmentTimeRange`: emit `[current, dayEnd)` with `dayEnd`
the next local midnight clamped to the range end, then advance. -/
def segLoop (off bEnd : Int) (current : Int) : List TimeSegment :=
  if _h : current < bEnd then
    ⟨current, segNext off bEnd current⟩ :: segLoop off bEnd (segNext off bEnd current)
  else []
termination_by (bEnd - current).toNat
decreasing_by
  have hcur : current < nextLocalMidnight off current := by
    have h2 := Int.ediv_add_emod (current + off) nsPerDay
    have h3 := Int.emod_lt_of_pos (current + off) (show (0:Int) < nsPerDay by norm_num [nsPerDay, nsPerSec])
    unfold nextLocalMidnight
    nlinarith
  unfold segNext
  split <;> omega

/-- `UniversalSyncer.segmentTimeRange`: a single segment when daily
segmentation is off, else day-aligned segments. -/
def segmentTimeRange (dailySegmentation : Bool) (off : Int) (r : TimeRange) : List TimeSegment :=
  if !dailySegmentation then [⟨r.Start, r.End⟩]
  else segLoop off r.End r.Start

/-! ## Probe validity and smart-mode strategy selection -/

/-- The probe-validity check as the code performs it
(`p.Valid && p.Time.After(minValidTime) && p.Time.Before(now.Add(24*time.Hour))`):
note both bounds are strict. -/
def goTimeValid (now : Int) (p : Option Int) : Bool :=
  match p with
  | none => false
  | some t => decide (minValidTime < t) && decide (t < now + 24 * nsPerHour)

/-- The validity predicate exactly as the specification words it:
non-null and `1900-01-01 ≤ t ≤ now + 24h` (both bounds inclusive).  Kept
separate from `goTimeValid` to compare spec against code. -/
def specTimeDefined (now : Int) (p : Option Int) : Bool :=
  match p with
  | none => false
  | some t => decide (minValidTime ≤ t) && decide (t ≤ now + 24 * nsPerHour)

/-- The three outcomes of `SyncWithRealtimeMode`'s strategy selection. -/
inductive SmartAction where
  | sourceEmpty
  | catchupThenRealtime
  | realtimeOnly
deriving Repr, DecidableEq

/-- Strategy selection of `UniversalSyncer.SyncWithRealtimeMode` (steps 1-2):
probe both maxima, validate, decide between skip / catch-up-then-realtime /
realtime-only.  When both validity flags hold the probes are necessarily
`some`, so the `getD 0` extraction is exact. -/
def SyncWithRealtimeMode (now threshold : Int) (maxTimeTarget maxTimeSource : Option Int) : SmartAction :=
  let targetTimeValid := goTimeValid now maxTimeTarget
  let sourceTimeValid := goTimeValid now maxTimeSource
  if !targetTimeValid && !sourceTimeValid then .sourceEmpty
  else
    let needCatchup :=
      if !targetTimeValid then true
      else if sourceTimeValid then
        let lag := maxTimeSource.getD 0 - maxTimeTarget.getD 0
        decide (threshold < lag)
      else false
    if needCatchup then .catchupThenRealtime else .realtimeOnly

/-! ## Realtime incremental sync -/

/-- A constructed realtime window: bounds plus whether the failover warning
(`source earlier than target`) was logged. -/
structure RealtimeWindow where
  Start : Int
  End : Int
  failoverWarning : Bool
deriving Repr, DecidableEq

/-- Window construction of `UniversalSyncer.realtimeIncrementalSync`
(steps 1-5): `none` when the function returns without building a window
(target invalid and source invalid, or source invalid). -/
def realtimeWindow (now : Int) (maxTimeTarget maxTimeSource : Option Int) : Option RealtimeWindow :=
  let targetTimeValid := goTimeValid now maxTimeTarget
  let sourceTimeValid := goTimeValid now maxTimeSource
  let backwardWindow := 5 * nsPerMin
  if !targetTimeValid then
    if !sourceTimeValid then none
    else some ⟨now - backwardWindow, maxTimeSource.getD 0, false⟩
  else if !sourceTimeValid then none
  else
    let tt := maxTimeTarget.getD 0
    let ts := maxTimeSource.getD 0
    if ts < tt then some ⟨tt - backwardWindow, ts + nsPerSec, true⟩
    else some ⟨tt - 5 * nsPerSec, ts + nsPerSec, false⟩

/-- The value of a record's time column, when it is a timestamp. -/
def rowTime (timeField : String) (r : Record) : Option Int :=
  match goMapGet r timeField with
  | .vtime t _ => some t
  | _ => none

/-- WHERE clause of `Deduplicator.FetchExistingKeys`:
`timeField >= start AND timeField < end` (half-open upper bound). -/
def dedupProbeSelects (timeField : String) (startT endT : Int) (r : Record) : Bool :=
  match rowTime timeField r with
  | some t => decide (startT ≤ t) && decide (t < endT)
  | none => false

/-- WHERE clause of the realtime count probe in `realtimeIncrementalSync`:
`timeField >= start AND timeField <= end` (closed upper bound). -/
def realtimeCountSelects (timeField : String) (startT endT : Int) (r : Record) : Bool :=
  match rowTime timeField r with
  | some t => decide (startT ≤ t) && decide (t ≤ endT)
  | none => false

/-- `Deduplicator.FetchExistingKeys`: the dedup keys of the target rows the
half-open probe selects. -/
def FetchExistingKeys (dedupeKeys : List String) (timeField : String)
    (targetRows : List Record) (seg : TimeSegment) : List String :=
  (targetRows.filter (dedupProbeSelects timeField seg.Start seg.End)).map (BuildKey dedupeKeys)

/-- The realtime count probe
(`SELECT COUNT(*) ... WHERE time >= ? AND time <= ?`). -/
def countNewRecords (timeField : String) (sourceRows : List Record) (startT endT : Int) : Nat :=
  (sourceRows.filter (realtimeCountSelects timeField startT endT)).length

/-- The source rows `syncSegment` streams:
`SELECT <cols> ... WHERE time >= ? AND time < ? ORDER BY time` (the driver
returns them time-ordered; the loop consumes them in the returned order). -/
def syncSegmentSourceRows (timeField : String) (sourceRows : List Record) (seg : TimeSegment) : List Record :=
  sourceRows.filter (fun r =>
    match rowTime timeField r with
    | some t => decide (seg.Start ≤ t) && decide (t < seg.End)
    | none => false)

/-! ## The segment sync loop (src/unnamed/part_004, syncSegment) -/

/-- The batched dedup-insert loop of `UniversalSyncer.syncSegment`
(steps 3-5): `batch` is the pending buffer, `acc` the rows already submitted
in committed batches, `inserted` the running `totalInserted`.  Returns the
inserted rows (in order) and the returned inserted count; database writes
are modelled on their success path (a write failure aborts the segment and
is outside this loop's claims). -/
def syncSegmentLoop (dedupeKeys : List String) (existingKeys : List String)
    (batchSize : Nat) (batch acc : List Record) (inserted : Nat) :
    List Record → List Record × Nat
  | [] =>
    if 0 < batch.length then (acc ++ batch, inserted + batch.length) else (acc, inserted)
  | r :: rs =>
    if existingKeys.contains (BuildKey dedupeKeys r) then
      syncSegmentLoop dedupeKeys existingKeys batchSize batch acc inserted rs
    else
      let batch1 := batch ++ [r]
      if batchSize ≤ batch1.length then
        syncSegmentLoop dedupeKeys existingKeys batchSize [] (acc ++ batch1) (inserted + batch1.length) rs
      else
        syncSegmentLoop dedupeKeys existingKeys batchSize batch1 acc inserted rs

/-- `UniversalSyncer.syncSegment`: fetch the existing keys for the segment,
stream the source rows of the window, dedup and batch-insert. -/
def syncSegment (dedupeKeys : List String) (timeField : String)
    (targetRows sourceRows : List Record) (seg : TimeSegment) (batchSize : Nat) :
    List Record × Nat :=
  let existingKeys := FetchExistingKeys dedupeKeys timeField targetRows seg
  syncSegmentLoop dedupeKeys existingKeys batchSize [] [] 0
    (syncSegmentSourceRows timeField sourceRows seg)

/-- `UniversalSyncer.realtimeIncrementalSync` end to end: build the window,
probe the count, and sync the window as a segment; `([], 0)` on every
return-without-insert path. -/
def realtimeIncrementalSync (dedupeKeys : List String) (timeField : String)
    (now : Int) (maxTimeTarget maxTimeSource : Option Int)
    (targetRows sourceRows : List Record) (batchSize : Nat) :
    List Record × Nat :=
  match realtimeWindow now maxTimeTarget maxTimeSource with
  | none => ([], 0)
  | some w =>
    if countNewRecords timeField sourceRows w.Start w.End = 0 then ([], 0)
    else syncSegment dedupeKeys timeField targetRows sourceRows ⟨w.Start, w.End⟩ batchSize

/-! ## Insert-time type coercion (src/unnamed/part_004, insertBatch) -/

/-- Substring occurrence over character lists: does `pat` occur in `cs`
(as a contiguous run)?  Structural so that it evaluates by reduction. -/
def strSub (pat : List Char) : List Char → Bool
  | [] => pat.isEmpty
  | c :: rest => pat.isPrefixOf (c :: rest) || strSub pat rest

/-- Go `strings.Contains`. -/
def strContains (s sub : String) : Bool := strSub sub.toList s.toList

/-- A maximal digit run parsed as a number; `none` when empty or when any
character is not a digit (`big.Int.SetString` / `strconv.ParseInt` digits). -/
def digitsToNat? (cs : List Char) : Option Nat :=
  if cs.isEmpty then none
  else if cs.all (fun c => c.isDigit) then
    some (cs.foldl (fun a c => a * 10 + (c.toNat - 48)) 0)
  else none

/-- `shopspring/decimal.NewFromString`: `[sign]digits[.digits][(e|E)[sign]digits]`
(the two digit groups around the dot are concatenated and must form a valid
integer; at most one dot).  Returns the coefficient and the exponent of
`coeff * 10 ^ exp`. -/
def parseDecimalGo (s : String) : Option (Int × Int) :=
  let cs := s.toList
  let i := cs.findIdx (fun c => c == 'e' || c == 'E')
  let mant := cs.take i
  let hasExp := i < cs.length
  let expCs := cs.drop (i + 1)
  let expVal? : Option Int :=
    if !hasExp then some 0
    else
      match expCs with
      | '+' :: ds => (digitsToNat? ds).map (fun n => (n : Int))
      | '-' :: ds => (digitsToNat? ds).map (fun n => -(n : Int))
      | ds => (digitsToNat? ds).map (fun n => (n : Int))
  match expVal? with
  | none => none
  | some e =>
    let j := mant.findIdx (fun c => c == '.')
    let hasDot := j < mant.length
    let fracPart := mant.drop (j + 1)
    if hasDot && fracPart.contains '.' then none
    else
      let joined := if hasDot then mant.take j ++ fracPart else mant
      let signAndDigits : Int × List Char :=
        match joined with
        | '+' :: rest => (1, rest)
        | '-' :: rest => (-1, rest)
        | rest => (1, rest)
      match digitsToNat? signAndDigits.2 with
      | none => none
      | some n => some (signAndDigits.1 * n, e - (if hasDot then (fracPart.length : Int) else 0))

/-- The per-cell coercion of `UniversalSyncer.insertBatch` (lines 579-616):
a `Decimal`-tagged column parses string/byte values into a decimal (falling
through unchanged when unparseable); a `DateTime`-tagged column replaces an
out-of-range or zero timestamp with 1970-01-01T00:00:00Z; everything else
passes through.  Total: no failure path exists. -/
def coerceValue (colType : String) (v : GoValue) : GoValue :=
  let decimalParsed : Option GoValue :=
    if strContains colType "Decimal" then
      match v with
      | .vstring s => (parseDecimalGo s).map (fun p => .vdecimal p.1 p.2)
      | .vbytes s => (parseDecimalGo s).map (fun p => .vdecimal p.1 p.2)
      | _ => none
    else none
  match decimalParsed with
  | some d => d
  | none =>
    if strContains colType "DateTime" then
      match v with
      | .vtime t off =>
        if t < minValidTime || coerceMaxTime < t || t = goZeroTime then .vtime epoch1970 0
        else .vtime t off
      | _ => v
    else v

/-- A schema column: name and ClickHouse type tag. -/
structure ColumnInfo where
  name : String
  type : String
deriving Repr, DecidableEq

/-- The `colTypeMap` built in `NewUniversalSyncer` (lines 66-70) from the
schema returned by `DetectTableSchema(sourceDB, ...)` (line 40): the
*source* connection's schema; the target schema plays no part. -/
def newUniversalSyncerColTypeMap (sourceSchema targetSchema : List ColumnInfo) :
    List (String × String) :=
  let _ := targetSchema
  sourceSchema.map (fun c => (c.name, c.type))

/-- `colTypeMap` built directly from a given schema (used to state what
coercion against the *target* schema would do). -/
def colTypeMapOf (schema : List ColumnInfo) : List (String × String) :=
  schema.map (fun c => (c.name, c.type))

/-- `typeStr, ok := s.colTypeMap[col]`. -/
def colTypeLookup (m : List (String × String)) (col : String) : Option String :=
  (m.find? (fun p => p.1 == col)).map (fun p => p.2)

/-- One cell of `insertBatch`'s values tuple: the record's value for the
column, coerced when the column has a type tag. -/
def insertBatchCell (colTypeMap : List (String × String)) (col : String) (record : Record) : GoValue :=
  match colTypeLookup colTypeMap col with
  | some ty => coerceValue ty (goMapGet record col)
  | none => goMapGet record col

/-- `insertBatch`: the value tuples submitted to the prepared statement, in
column order, one tuple per record. -/
def insertBatchValues (colTypeMap : List (String × String)) (columns : List String)
    (batch : List Record) : List (List GoValue) :=
  batch.map (fun record => columns.map (fun col => insertBatchCell colTypeMap col record))

/-! ## Checkpoint state manager (src/unnamed/part_002) -/

/-- `TableState`: per-table checkpoint record. -/
structure TableState where
  status : String
  lastSyncedTime : Int
  recordsSynced : Int
  completedSegments : List TimeSegment
deriving Repr, DecidableEq, Inhabited

/-- `SyncState`: the whole persisted document (tables as an association
list modelling the Go map). -/
structure SyncState where
  runId : String
  startTime : Int
  lastUpdated : Int
  tables : List (String × TableState)
deriving Repr, DecidableEq, Inhabited

/-- Assignment on a string-keyed association list: overwrite the existing
binding or append a new one (Go map assignment, file overwrite). -/
def alistSet {β : Type} (m : List (String × β)) (k : String) (v : β) :
    List (String × β) :=
  if m.any (fun p => p.1 == k) then
    m.map (fun p => if p.1 == k then (k, v) else p)
  else m ++ [(k, v)]

/-- Lookup on a string-keyed association list (Go comma-ok read). -/
def alistGet {β : Type} (m : List (String × β)) (k : String) : Option β :=
  (m.find? (fun p => p.1 == k)).map (fun p => p.2)

/-- Deletion on a string-keyed association list. -/
def alistRemove {β : Type} (m : List (String × β)) (k : String) :
    List (String × β) :=
  m.filter (fun p => !(p.1 == k))

/-- Go map assignment `m[k] = v` for the tables map. -/
def tablesSet (m : List (String × TableState)) (k : String) (v : TableState) :
    List (String × TableState) :=
  alistSet m k v

/-- Go map read `m[k]` with the comma-ok idiom. -/
def tablesGet (m : List (String × TableState)) (k : String) : Option TableState :=
  alistGet m k

/-- The file system visible to the state manager: path to contents. -/
abbrev FS := List (String × String)

/-- `os.WriteFile`: create or overwrite. -/
def fsWrite (fs : FS) (path content : String) : FS :=
  alistSet fs path content

/-- Read a path's contents. -/
def fsRead (fs : FS) (path : String) : Option String :=
  alistGet fs path

/-- Delete a path. -/
def fsRemove (fs : FS) (path : String) : FS := alistRemove fs path

/-- `os.Rename(oldPath, newPath)`: move, replacing any existing target. -/
def fsRename (fs : FS) (oldPath newPath : String) : FS :=
  match fsRead fs oldPath with
  | none => fs
  | some content => fsWrite (fsRemove fs oldPath) newPath content

/-- `StateManager.saveStateUnlocked`: stamp `LastUpdated`, marshal
(`marshal` abstracts `json.MarshalIndent`), write `<path>.tmp`, rename over
`<path>`.  `writeOk` / `renameOk` inject the file-system failures; the
third component is the error value the function *returns*. -/
def saveStateUnlocked (marshal : SyncState → String) (stateFile : String)
    (st : SyncState) (nowWall : Int) (fs : FS) (writeOk renameOk : Bool) :
    SyncState × FS × Option String :=
  let st1 := { st with lastUpdated := nowWall }
  let data := marshal st1
  let tmpFile := stateFile ++ ".tmp"
  if !writeOk then (st1, fs, some "write error")
  else
    let fs1 := fsWrite fs tmpFile data
    if !renameOk then (st1, fs1, some "rename error")
    else (st1, fsRename fs1 tmpFile stateFile, none)

/-- `StateManager.MarkSegmentCompleted`: create the table entry if missing,
append the segment, add the count, bump the wall time, then call
`saveStateUnlocked` — whose returned error the Go code discards (the method
has no return value).  The result is exactly what a caller can observe: the
new in-memory state and the file system.  Both `time.Now()` reads (the
table's `LastSyncedTime` and the document's `LastUpdated`) are modelled by
the one instant `nowWall`. -/
def MarkSegmentCompleted (marshal : SyncState → String) (stateFile : String)
    (st : SyncState) (tableName : String) (segment : TimeSegment)
    (recordCount : Int) (nowWall : Int) (fs : FS) (writeOk renameOk : Bool) :
    SyncState × FS :=
  let st0 :=
    if st.tables.any (fun p => p.1 == tableName) then st
    else { st with tables := tablesSet st.tables tableName ⟨"in_progress", goZeroTime, 0, []⟩ }
  let ts :=
    match tablesGet st0.tables tableName with
    | some t => t
    | none => ⟨"in_progress", goZeroTime, 0, []⟩
  let ts1 : TableState :=
    { ts with
        completedSegments := ts.completedSegments ++ [segment],
        recordsSynced := ts.recordsSynced + recordCount,
        lastSyncedTime := nowWall }
  let st1 := { st0 with tables := tablesSet st0.tables tableName ts1 }
  let saved := saveStateUnlocked marshal stateFile st1 nowWall fs writeOk renameOk
  (saved.1, saved.2.1)

/-! ## Catch-up window resolution (src/unnamed/part_004, determineTimeRange) -/

/-- The error a sync can abort with (`ErrSourceTableEmpty`). -/
inductive SyncErr where
  | sourceTableEmpty
deriving Repr, DecidableEq

/-- `UniversalSyncer.determineTimeRange`.  The configured RFC3339 strings
arrive pre-parsed (`cfgStart` / `cfgEnd` are the parsed instants, `none`
when the config string is empty); the several `time.Now()` reads inside the
function are the single instant `now`; `srcMaxProbe` is the source `MAX`
probe of the end branch, `tgtMaxProbe` the target `MAX` probe, and
`srcMinProbe` / `srcMaxProbe2` the combined source `MIN`/`MAX` probe of the
empty-target branch (each `none` for SQL NULL). -/
def determineTimeRange (cfgStart cfgEnd : Option Int) (autoDetect : Bool)
    (fallbackDays : Int) (now : Int)
    (srcMaxProbe tgtMaxProbe srcMinProbe srcMaxProbe2 : Option Int) :
    Except SyncErr TimeRange :=
  let endRes : Except SyncErr Int :=
    match cfgEnd with
    | some e => .ok e
    | none =>
      match srcMaxProbe with
      | some t =>
        if minValidTime < t ∧ t < now + 24 * nsPerHour then .ok (t + nsPerSec)
        else .error .sourceTableEmpty
      | none => .error .sourceTableEmpty
  match endRes with
  | .error e => .error e
  | .ok endTime =>
    if autoDetect then
      let isValidTime :=
        match tgtMaxProbe with
        | some t => decide (minValidTime < t) && decide (t < endTime + 24 * nsPerHour)
        | none => false
      if isValidTime then .ok ⟨tgtMaxProbe.getD 0 + nsPerMs, endTime⟩
      else
        match srcMinProbe, srcMaxProbe2 with
        | some mn, some _ =>
          let fallbackTime := now - fallbackDays * nsPerDay
          if fallbackTime < mn then .ok ⟨mn, endTime⟩
          else .ok ⟨fallbackTime, endTime⟩
        | _, _ => .error .sourceTableEmpty
    else
      match cfgStart with
      | some s => .ok ⟨s, endTime⟩
      | none => .ok ⟨now - 30 * nsPerDay, endTime⟩

/-- The segment plan `incrementalSync` executes: `.ok []` on the no-op path
(`!timeRange.Start.Before(timeRange.End)`), otherwise the day segments of
the resolved range. -/
def incrementalSyncPlan (dailySegmentation : Bool) (off : Int)
    (cfgStart cfgEnd : Option Int) (autoDetect : Bool) (fallbackDays now : Int)
    (srcMaxProbe tgtMaxProbe srcMinProbe srcMaxProbe2 : Option Int) :
    Except SyncErr (List TimeSegment) :=
  match determineTimeRange cfgStart cfgEnd autoDetect fallbackDays now
      srcMaxProbe tgtMaxProbe srcMinProbe srcMaxProbe2 with
  | .error e => .error e
  | .ok tr =>
    if tr.Start < tr.End then .ok (segmentTimeRange dailySegmentation off tr)
    else .ok []

/-! # Theorems

Supporting lemmas first, then one theorem per claim (with its witness or
counterexample). -/

/-! ## Day-segmenter lemmas -/

theorem nsPerDay_pos : (0 : Int) < nsPerDay := by norm_num [nsPerDay, nsPerSec]

theorem lt_nextLocalMidnight (off t : Int) : t < nextLocalMidnight off t := by
  have h2 := Int.ediv_add_emod (t + off) nsPerDay
  have h3 := Int.emod_lt_of_pos (t + off) nsPerDay_pos
  unfold nextLocalMidnight
  nlinarith

theorem nextLocalMidnight_isMidnight (off t : Int) :
    isLocalMidnight off (nextLocalMidnight off t) := by
  unfold isLocalMidnight nextLocalMidnight
  have h : ((t + off) / nsPerDay + 1) * nsPerDay - off + off
      = ((t + off) / nsPerDay + 1) * nsPerDay := by ring
  rw [h]
  exact Int.mul_emod_left _ _

theorem segNext_gt (off bEnd current : Int) (h : current < bEnd) :
    current < segNext off bEnd current := by
  have hm := lt_nextLocalMidnight off current
  unfold segNext
  split <;> omega

theorem segNext_le (off bEnd current : Int) : segNext off bEnd current ≤ bEnd := by
  unfold segNext
  split <;> omega

theorem segNext_midnight_of_lt (off bEnd current : Int)
    (h : segNext off bEnd current < bEnd) :
    isLocalMidnight off (segNext off bEnd current) := by
  by_cases hc : bEnd < nextLocalMidnight off current
  · unfold segNext at h
    rw [if_pos hc] at h
    omega
  · unfold segNext
    rw [if_neg hc]
    exact nextLocalMidnight_isMidnight off current

theorem segLoop_of_lt (off bEnd current : Int) (h : current < bEnd) :
    segLoop off bEnd current
      = ⟨current, segNext off bEnd current⟩ :: segLoop off bEnd (segNext off bEnd current) := by
  rw [segLoop]
  simp [h]

theorem segLoop_of_ge (off bEnd current : Int) (h : ¬ current < bEnd) :
    segLoop off bEnd current = [] := by
  rw [segLoop]
  simp [h]

/-- The full invariant of the segmentation loop, by strong induction on the
remaining range. -/
theorem segLoop_props (off bEnd : Int) : ∀ n : ℕ, ∀ current : Int,
    (bEnd - current).toNat ≤ n →
    (segLoop off bEnd current = [] ↔ bEnd ≤ current)
    ∧ (current < bEnd →
        (segLoop off bEnd current).head?.map TimeSegment.Start = some current)
    ∧ (current < bEnd →
        (segLoop off bEnd current).getLast?.map TimeSegment.End = some bEnd)
    ∧ List.Chain' (fun s₁ s₂ => s₁.End = s₂.Start) (segLoop off bEnd current)
    ∧ (∀ s ∈ segLoop off bEnd current, s.Start < s.End ∧ current ≤ s.Start ∧ s.End ≤ bEnd)
    ∧ (∀ t : Int, (current ≤ t ∧ t < bEnd)
        ↔ ∃ s ∈ segLoop off bEnd current, s.Start ≤ t ∧ t < s.End)
    ∧ List.Pairwise (fun s₁ s₂ => s₁.End ≤ s₂.Start) (segLoop off bEnd current)
    ∧ (∀ s ∈ (segLoop off bEnd current).dropLast, isLocalMidnight off s.End) := by
  intro n
  induction n with
  | zero =>
    intro current hn
    have hge : ¬ current < bEnd := by omega
    rw [segLoop_of_ge off bEnd current hge]
    refine ⟨⟨fun _ => by omega, fun _ => rfl⟩, fun h => absurd h hge, fun h => absurd h hge,
      by simp, by simp, ?_, by simp, by simp⟩
    intro t
    constructor
    · intro ht; omega
    · rintro ⟨s, hs, -⟩; simp at hs
  | succ n ih =>
    intro current hn
    by_cases hc : current < bEnd
    · have hd1 : current < segNext off bEnd current := segNext_gt off bEnd current hc
      have hd2 : segNext off bEnd current ≤ bEnd := segNext_le off bEnd current
      obtain ⟨ih1, ih2, ih3, ih4, ih5, ih6, ih7, ih8⟩ :=
        ih (segNext off bEnd current) (by omega)
      rw [segLoop_of_lt off bEnd current hc]
      set d := segNext off bEnd current with hdDef
      refine ⟨?_, ?_, ?_, ?_, ?_, ?_, ?_, ?_⟩
      · exact ⟨fun h => absurd h (List.cons_ne_nil _ _), fun h => absurd h (by omega)⟩
      · intro _; simp
      · intro _
        by_cases hdb : d < bEnd
        · have hne : segLoop off bEnd d ≠ [] := by
            rw [ne_eq, ih1]; omega
          obtain ⟨y, ys, hys⟩ := List.exists_cons_of_ne_nil hne
          rw [hys, List.getLast?_cons_cons, ← hys]
          exact ih3 hdb
        · have hdb2 : d = bEnd := by omega
          have hnil : segLoop off bEnd d = [] := ih1.mpr (by omega)
          rw [hnil]
          simp [hdb2]
      · rw [List.chain'_cons']
        refine ⟨?_, ih4⟩
        intro y hy
        have hne : segLoop off bEnd d ≠ [] := by
          intro hnil
          rw [hnil] at hy
          simp at hy
        have hdb : d < bEnd := by
          rcases lt_or_ge d bEnd with h | h
          · exact h
          · exact absurd (ih1.mpr h) hne
        have h2 := ih2 hdb
        rw [Option.mem_def] at hy
        rw [hy] at h2
        simp at h2
        simpa using h2.symm
      · intro s hs
        rcases List.mem_cons.mp hs with h | h
        · subst h; exact ⟨hd1, le_refl _, hd2⟩
        · have := ih5 s h
          exact ⟨this.1, by omega, this.2.2⟩
      · intro t
        constructor
        · intro ht
          by_cases htd : t < d
          · exact ⟨⟨current, d⟩, List.mem_cons_self _ _, ht.1, htd⟩
          · obtain ⟨s, hs, hst⟩ := (ih6 t).mp ⟨by omega, ht.2⟩
            exact ⟨s, List.mem_cons_of_mem _ hs, hst⟩
        · rintro ⟨s, hs, h1, h2⟩
          rcases List.mem_cons.mp hs with h | h
          · subst h
            simp only at h1 h2
            omega
          · have := ih5 s h
            omega
      · rw [List.pairwise_cons]
        refine ⟨?_, ih7⟩
        intro s hs
        exact (ih5 s hs).2.1
      · by_cases hdb : d < bEnd
        · have hne : segLoop off bEnd d ≠ [] := by
            rw [ne_eq, ih1]; omega
          obtain ⟨y, ys, hys⟩ := List.exists_cons_of_ne_nil hne
          intro s hs
          rw [hys, List.dropLast_cons₂] at hs
          rcases List.mem_cons.mp hs with h | h
          · subst h
            exact segNext_midnight_of_lt off bEnd current hdb
          · exact ih8 s (by rw [hys]; exact h)
        · have hnil : segLoop off bEnd d = [] := ih1.mpr (by omega)
          rw [hnil]
          simp
    · rw [segLoop_of_ge off bEnd current hc]
      refine ⟨⟨fun _ => by omega, fun _ => rfl⟩, fun h => absurd h hc, fun h => absurd h hc,
        by simp, by simp, ?_, by simp, by simp⟩
      intro t
      constructor
      · intro ht; omega
      · rintro ⟨s, hs, -⟩; simp at hs

/-- **C3** — Segment tiling: for every pair of timestamps `a`, `b`, the list
produced by `segmentTimeRange` for `[a, b)` with daily segmentation enabled
tiles `[a, b)` exactly — non-empty iff `a < b`, first segment starts at `a`,
last ends at `b`, adjacent segments touch at the same endpoint, every point
of `[a, b)` lies in exactly the covering segment and no two segments
overlap, and every interior boundary is a local midnight of the start
timestamp's (fixed-offset) timezone; with daily segmentation disabled the
result is the single segment `[a, b)`. -/
theorem claim_C3_segment_tiling (off a b : Int) :
    (segmentTimeRange true off ⟨a, b⟩ ≠ [] ↔ a < b)
    ∧ (a < b → (segmentTimeRange true off ⟨a, b⟩).head?.map TimeSegment.Start = some a)
    ∧ (a < b → (segmentTimeRange true off ⟨a, b⟩).getLast?.map TimeSegment.End = some b)
    ∧ List.Chain' (fun s₁ s₂ => s₁.End = s₂.Start) (segmentTimeRange true off ⟨a, b⟩)
    ∧ (∀ t : Int, (a ≤ t ∧ t < b)
        ↔ ∃ s ∈ segmentTimeRange true off ⟨a, b⟩, s.Start ≤ t ∧ t < s.End)
    ∧ List.Pairwise
        (fun s₁ s₂ => ∀ t : Int, ¬(s₁.Start ≤ t ∧ t < s₁.End ∧ s₂.Start ≤ t ∧ t < s₂.End))
        (segmentTimeRange true off ⟨a, b⟩)
    ∧ (∀ s ∈ (segmentTimeRange true off ⟨a, b⟩).dropLast, isLocalMidnight off s.End)
    ∧ segmentTimeRange false off ⟨a, b⟩ = [⟨a, b⟩] := by
  have hL : segmentTimeRange true off ⟨a, b⟩ = segLoop off b a := rfl
  obtain ⟨h1, h2, h3, h4, h5, h6, h7, h8⟩ :=
    segLoop_props off b ((b - a).toNat) a (le_refl _)
  rw [hL]
  refine ⟨?_, h2, h3, h4, h6, ?_, h8, rfl⟩
  · constructor
    · intro hne
      by_contra hab
      exact hne (h1.mpr (by omega))
    · intro hab hnil
      have := h1.mp hnil
      omega
  · refine h7.imp ?_
    intro s₁ s₂ hle t
    omega

/-- Witness for C3 at `off = 0`, `a = 0`, `b = nsPerDay + 5`. -/
theorem claim_C3_segment_tiling_witness :
    segmentTimeRange true 0 ⟨0, nsPerDay + 5⟩ ≠ []
    ∧ (segmentTimeRange true 0 ⟨0, nsPerDay + 5⟩).head?.map TimeSegment.Start = some 0
    ∧ (segmentTimeRange true 0 ⟨0, nsPerDay + 5⟩).getLast?.map TimeSegment.End
        = some (nsPerDay + 5) :=
  ⟨(claim_C3_segment_tiling 0 0 (nsPerDay + 5)).1.mpr (by norm_num [nsPerDay, nsPerSec]),
   (claim_C3_segment_tiling 0 0 (nsPerDay + 5)).2.1 (by norm_num [nsPerDay, nsPerSec]),
   (claim_C3_segment_tiling 0 0 (nsPerDay + 5)).2.2.1 (by norm_num [nsPerDay, nsPerSec])⟩

/-! ## Dedup-key lemmas -/

theorem intercalate_go_append (s : String) (l : List String) :
    ∀ acc₁ acc₂ : String,
      String.intercalate.go (acc₁ ++ acc₂) s l = acc₁ ++ String.intercalate.go acc₂ s l := by
  induction l with
  | nil => intro acc₁ acc₂; rfl
  | cons a as ih =>
    intro acc₁ acc₂
    have h1 : String.intercalate.go (acc₁ ++ acc₂) s (a :: as)
        = String.intercalate.go (acc₁ ++ acc₂ ++ s ++ a) s as := rfl
    have h2 : String.intercalate.go acc₂ s (a :: as)
        = String.intercalate.go (acc₂ ++ s ++ a) s as := rfl
    rw [h1, h2, show acc₁ ++ acc₂ ++ s ++ a = acc₁ ++ (acc₂ ++ s ++ a) by
      simp [String.append_assoc], ih]

theorem buildKeyFromValues_cons (v : GoValue) (rest : List GoValue) (hne : rest ≠ []) :
    buildKeyFromValues (v :: rest) = formatValue v ++ "|" ++ buildKeyFromValues rest := by
  obtain ⟨w, ws, rfl⟩ := List.exists_cons_of_ne_nil hne
  show String.intercalate.go (formatValue v) "|" (formatValue w :: ws.map formatValue)
      = formatValue v ++ "|" ++ String.intercalate.go (formatValue w) "|" (ws.map formatValue)
  have h1 : String.intercalate.go (formatValue v) "|" (formatValue w :: ws.map formatValue)
      = String.intercalate.go (formatValue v ++ "|" ++ formatValue w) "|" (ws.map formatValue) := rfl
  rw [h1, intercalate_go_append]

/-- **C4** — Dedup-key derivation is a total function on ordered value
tuples rendered per variant (null → `<NULL>`, timestamp → nanosecond
ISO-8601, byte string → its bytes, integers → unpadded decimal, float →
`%f` with six fraction digits, bool → `true`/`false`, anything else → its
canonical rendering) and joined with the single-byte separator `|`
(U+007C). -/
theorem claim_C4_dedup_key_derivation :
    (∀ values : List GoValue,
      buildKeyFromValues values = String.intercalate "|" (values.map formatValue))
    ∧ (∀ (v : GoValue) (rest : List GoValue), rest ≠ [] →
        buildKeyFromValues (v :: rest) = formatValue v ++ "|" ++ buildKeyFromValues rest)
    ∧ "|".utf8ByteSize = 1
    ∧ formatValue .vnull = "<NULL>"
    ∧ (∀ t off : Int, formatValue (.vtime t off) = fmtRFC3339Nano off t)
    ∧ (∀ s, formatValue (.vstring s) = s)
    ∧ (∀ s, formatValue (.vbytes s) = s)
    ∧ (∀ i : Int, formatValue (.vint i) = toString i)
    ∧ (∀ n : Nat, formatValue (.vuint n) = toString n)
    ∧ (∀ q : ℚ, formatValue (.vfloat q) = fmtFloat6 q)
    ∧ (∀ b, formatValue (.vbool b) = if b then "true" else "false")
    ∧ (∀ c e : Int, formatValue (.vdecimal c e) = decimalString c e)
    ∧ (∀ r, formatValue (.vother r) = r) :=
  ⟨fun _ => rfl, buildKeyFromValues_cons, rfl, rfl, fun _ _ => rfl, fun _ => rfl,
   fun _ => rfl, fun _ => rfl, fun _ => rfl, fun _ => rfl, fun _ => rfl,
   fun _ _ => rfl, fun _ => rfl⟩

/-- Witness for C4: the join rule at a concrete two-value tuple. -/
theorem claim_C4_dedup_key_derivation_witness :
    buildKeyFromValues [.vnull, .vint (-7)]
      = formatValue .vnull ++ "|" ++ buildKeyFromValues [.vint (-7)] :=
  claim_C4_dedup_key_derivation.2.1 .vnull [.vint (-7)] (by simp)

/-- **C10** — A dedup column absent from the record renders identically to
an explicit null: Go map indexing yields the nil interface, which formats
as `<NULL>`, so adding the column with an explicit null leaves the dedup
key unchanged (the two rows are indistinguishable in the dedup set). -/
theorem claim_C10_missing_column_renders_null (dk : List String) (r : Record) (c : String)
    (habs : r.find? (fun p => p.1 == c) = none) :
    goMapGet r c = .vnull
    ∧ formatValue (goMapGet r c) = "<NULL>"
    ∧ BuildKey dk ((c, .vnull) :: r) = BuildKey dk r := by
  have hget : goMapGet r c = .vnull := by simp [goMapGet, habs]
  have hpt : ∀ k, goMapGet ((c, GoValue.vnull) :: r) k = goMapGet r k := by
    intro k
    by_cases hk : c = k
    · subst hk
      simp [goMapGet, List.find?_cons, habs]
    · simp [goMapGet, List.find?_cons, hk]
  refine ⟨hget, by rw [hget]; rfl, ?_⟩
  unfold BuildKey
  congr 1
  exact List.map_congr_left (fun k _ => hpt k)

/-- Witness for C10 at a concrete record missing column `b`. -/
theorem claim_C10_missing_column_renders_null_witness :
    goMapGet [("a", GoValue.vint 1)] "b" = .vnull
    ∧ formatValue (goMapGet [("a", GoValue.vint 1)] "b") = "<NULL>"
    ∧ BuildKey ["a", "b"] (("b", GoValue.vnull) :: [("a", GoValue.vint 1)])
        = BuildKey ["a", "b"] [("a", GoValue.vint 1)] :=
  claim_C10_missing_column_renders_null ["a", "b"] [("a", GoValue.vint 1)] "b" (by rfl)

/-! ## Query-bound asymmetry -/

/-- **C7** — For every window, the dedup-key probe selects
`time >= start AND time < end` (half-open: a row at exactly `end` is
excluded) while the realtime count probe selects
`time >= start AND time <= end` (closed: a row at exactly `end` is
counted). -/
theorem claim_C7_query_bound_asymmetry (tf : String) (s e t : Int) (r : Record)
    (hrt : rowTime tf r = some t) :
    (dedupProbeSelects tf s e r = (decide (s ≤ t) && decide (t < e)))
    ∧ (realtimeCountSelects tf s e r = (decide (s ≤ t) && decide (t ≤ e)))
    ∧ (t = e → s ≤ e →
        dedupProbeSelects tf s e r = false
        ∧ realtimeCountSelects tf s e r = true
        ∧ (∀ rows : List Record, r ∉ rows.filter (dedupProbeSelects tf s e))
        ∧ (∀ rows : List Record, r ∈ rows → 0 < countNewRecords tf rows s e)) := by
  have hd : dedupProbeSelects tf s e r = (decide (s ≤ t) && decide (t < e)) := by
    unfold dedupProbeSelects
    rw [hrt]
  have hrc : realtimeCountSelects tf s e r = (decide (s ≤ t) && decide (t ≤ e)) := by
    unfold realtimeCountSelects
    rw [hrt]
  refine ⟨hd, hrc, ?_⟩
  rintro rfl hse
  have hdf : dedupProbeSelects tf s t r = false := by rw [hd]; simp
  have hrt2 : realtimeCountSelects tf s t r = true := by rw [hrc]; simp [hse]
  refine ⟨hdf, hrt2, ?_, ?_⟩
  · intro rows hmem
    rw [List.mem_filter] at hmem
    rw [hdf] at hmem
    exact absurd hmem.2 (by simp)
  · intro rows hmem
    unfold countNewRecords
    have : r ∈ rows.filter (realtimeCountSelects tf s t) :=
      List.mem_filter.mpr ⟨hmem, hrt2⟩
    exact List.length_pos.mpr (fun hnil => by rw [hnil] at this; simp at this)

/-- Witness for C7: a row timestamped exactly at the window end. -/
theorem claim_C7_query_bound_asymmetry_witness :
    dedupProbeSelects "t" 0 5 [("t", GoValue.vtime 5 0)] = false
    ∧ realtimeCountSelects "t" 0 5 [("t", GoValue.vtime 5 0)] = true :=
  ⟨((claim_C7_query_bound_asymmetry "t" 0 5 5 [("t", GoValue.vtime 5 0)] (by rfl)).2.2
      (by rfl) (by norm_num)).1,
   ((claim_C7_query_bound_asymmetry "t" 0 5 5 [("t", GoValue.vtime 5 0)] (by rfl)).2.2
      (by rfl) (by norm_num)).2.1⟩

/-! ## Segment sync loop -/

/-- The batched loop inserts exactly the rows whose dedup key is not in the
existing set, in order, regardless of how they fall into batches. -/
theorem syncSegmentLoop_spec (dk existing : List String) (bs : Nat) :
    ∀ (rows batch acc : List Record) (inserted : Nat),
      syncSegmentLoop dk existing bs batch acc inserted rows
        = (acc ++ batch ++ rows.filter (fun r => !(existing.contains (BuildKey dk r))),
           inserted + batch.length
             + (rows.filter (fun r => !(existing.contains (BuildKey dk r)))).length) := by
  intro rows
  induction rows with
  | nil =>
    intro batch acc inserted
    by_cases hb : 0 < batch.length
    · simp [syncSegmentLoop, hb]
    · have hbnil : batch = [] := by
        cases batch with
        | nil => rfl
        | cons x xs => simp at hb
      simp [syncSegmentLoop, hb, hbnil]
  | cons r rs ih =>
    intro batch acc inserted
    by_cases hk : BuildKey dk r ∈ existing
    · have hc : existing.contains (BuildKey dk r) = true := by simpa using hk
      simp [syncSegmentLoop, hc, hk, ih, List.filter_cons]
    · have hc : existing.contains (BuildKey dk r) = false := by simpa using hk
      by_cases hflush : bs ≤ batch.length + 1
      · simp [syncSegmentLoop, hc, hk, hflush, ih, List.filter_cons, List.append_assoc]
        omega
      · simp [syncSegmentLoop, hc, hk, hflush, ih, List.filter_cons, List.append_assoc]
        omega

/-- **C8** — Replay idempotence of `syncSegment`: every source row whose
dedup key is in the existing-keys set fetched from the target at the start
of the call is skipped and never inserted; when the target already holds
the key of every source row in the window, `syncSegment` inserts nothing
and returns an inserted count of 0. -/
theorem claim_C8_replay_idempotence (dk : List String) (tf : String)
    (targetRows sourceRows : List Record) (seg : TimeSegment) (bs : Nat) :
    (∀ r ∈ syncSegmentSourceRows tf sourceRows seg,
        (FetchExistingKeys dk tf targetRows seg).contains (BuildKey dk r) = true →
        r ∉ (syncSegment dk tf targetRows sourceRows seg bs).1)
    ∧ ((∀ r ∈ syncSegmentSourceRows tf sourceRows seg,
        (FetchExistingKeys dk tf targetRows seg).contains (BuildKey dk r) = true) →
        syncSegment dk tf targetRows sourceRows seg bs = ([], 0)) := by
  have hspec := syncSegmentLoop_spec dk (FetchExistingKeys dk tf targetRows seg) bs
    (syncSegmentSourceRows tf sourceRows seg) [] [] 0
  have hsync : syncSegment dk tf targetRows sourceRows seg bs
      = ((syncSegmentSourceRows tf sourceRows seg).filter
          (fun r => !((FetchExistingKeys dk tf targetRows seg).contains (BuildKey dk r))),
         ((syncSegmentSourceRows tf sourceRows seg).filter
          (fun r => !((FetchExistingKeys dk tf targetRows seg).contains (BuildKey dk r)))).length) := by
    unfold syncSegment
    rw [hspec]
    simp
  constructor
  · intro r _ hkey hmem
    rw [hsync] at hmem
    simp only at hmem
    have := (List.mem_filter.mp hmem).2
    rw [hkey] at this
    simp at this
  · intro hall
    rw [hsync]
    have hnil : (syncSegmentSourceRows tf sourceRows seg).filter
        (fun r => !((FetchExistingKeys dk tf targetRows seg).contains (BuildKey dk r))) = [] := by
      rw [List.filter_eq_nil_iff]
      intro r hr
      rw [hall r hr]
      simp
    rw [hnil]
    simp

/-- Witness for C8: a one-row source window whose key the target already
holds syncs to zero inserts. -/
theorem claim_C8_replay_idempotence_witness :
    syncSegment ["id"] "t" [[("id", GoValue.vint 1), ("t", GoValue.vtime 5 0)]]
      [[("id", GoValue.vint 1), ("t", GoValue.vtime 5 0)]] ⟨0, 10⟩ 2 = ([], 0) :=
  (claim_C8_replay_idempotence ["id"] "t"
    [[("id", GoValue.vint 1), ("t", GoValue.vtime 5 0)]]
    [[("id", GoValue.vint 1), ("t", GoValue.vtime 5 0)]] ⟨0, 10⟩ 2).2 (by decide)

/-! ## Smart-mode strategy selection -/

/-- **C1 counterexample** — the claim words the validity predicate
inclusively (`1900-01-01 ≤ t ≤ now + 24h`), but the code's check is strict
(`After`/`Before`).  At `t = 1900-01-01` exactly with an undefined target,
the claim's decision table demands catch-up-then-realtime (target undefined,
source defined), while the code returns `SourceTableEmpty`. -/
theorem claim_C1_smart_mode_counterexample :
    specTimeDefined 0 (some minValidTime) = true
    ∧ specTimeDefined 0 none = false
    ∧ SyncWithRealtimeMode 0 (300 * nsPerSec) none (some minValidTime)
        = SmartAction.sourceEmpty
    ∧ SyncWithRealtimeMode 0 (300 * nsPerSec) none (some minValidTime)
        ≠ SmartAction.catchupThenRealtime := by
  refine ⟨by decide, rfl, by decide, by decide⟩

/-- **C1 amended** — smart-mode strategy selection with the code's *strict*
validity predicate (`1900-01-01 < t < now + 24h`, non-null): both probes
invalid → `SourceTableEmpty`; target invalid, source valid → catch-up then
realtime; target valid, source invalid → realtime only, and the realtime
pass builds no window (a no-op); both valid → catch-up then realtime
exactly when `source_max − target_max > threshold`, else realtime only. -/
theorem claim_C1_amended_smart_mode_table (now threshold : Int) (tm sm : Option Int) :
    (goTimeValid now tm = false → goTimeValid now sm = false →
        SyncWithRealtimeMode now threshold tm sm = SmartAction.sourceEmpty)
    ∧ (goTimeValid now tm = false → goTimeValid now sm = true →
        SyncWithRealtimeMode now threshold tm sm = SmartAction.catchupThenRealtime)
    ∧ (goTimeValid now tm = true → goTimeValid now sm = false →
        SyncWithRealtimeMode now threshold tm sm = SmartAction.realtimeOnly
        ∧ realtimeWindow now tm sm = none)
    ∧ (∀ tt ts : Int, tm = some tt → sm = some ts →
        goTimeValid now tm = true → goTimeValid now sm = true →
        ((threshold < ts - tt →
            SyncWithRealtimeMode now threshold tm sm = SmartAction.catchupThenRealtime)
         ∧ (ts - tt ≤ threshold →
            SyncWithRealtimeMode now threshold tm sm = SmartAction.realtimeOnly))) := by
  refine ⟨?_, ?_, ?_, ?_⟩
  · intro h1 h2
    simp [SyncWithRealtimeMode, h1, h2]
  · intro h1 h2
    simp [SyncWithRealtimeMode, h1, h2]
  · intro h1 h2
    exact ⟨by simp [SyncWithRealtimeMode, h1, h2], by simp [realtimeWindow, h1, h2]⟩
  · rintro tt ts rfl rfl h1 h2
    constructor
    · intro hlag
      simp [SyncWithRealtimeMode, h1, h2, hlag]
    · intro hlag
      have hd : ¬ threshold < ts - tt := by omega
      simp [SyncWithRealtimeMode, h1, h2, hd]

/-- Witness for the amended C1 at concrete probes (target undefined, source
valid). -/
theorem claim_C1_amended_smart_mode_table_witness :
    SyncWithRealtimeMode 0 (300 * nsPerSec) none (some (-1000))
      = SmartAction.catchupThenRealtime :=
  (claim_C1_amended_smart_mode_table 0 (300 * nsPerSec) none (some (-1000))).2.1
    (by decide) (by decide)

/-! ## Realtime window construction -/

/-- **C2** — Realtime window construction with backward window
`B = 5 minutes`: target undefined and source defined → `[now − B, source_max]`;
both defined and `source_max ≥ target_max` → `[target_max − 5s, source_max + 1s]`;
both defined and `source_max < target_max` (failover) →
`[target_max − B, source_max + 1s]` with the warning logged; and a
zero-count probe makes the realtime sync return without any insert. -/
theorem claim_C2_realtime_window (now : Int) (tm sm : Option Int) :
    (∀ ts : Int, goTimeValid now tm = false → sm = some ts →
        goTimeValid now sm = true →
        realtimeWindow now tm sm = some ⟨now - 5 * nsPerMin, ts, false⟩)
    ∧ (∀ tt ts : Int, tm = some tt → sm = some ts →
        goTimeValid now tm = true → goTimeValid now sm = true → tt ≤ ts →
        realtimeWindow now tm sm = some ⟨tt - 5 * nsPerSec, ts + nsPerSec, false⟩)
    ∧ (∀ tt ts : Int, tm = some tt → sm = some ts →
        goTimeValid now tm = true → goTimeValid now sm = true → ts < tt →
        realtimeWindow now tm sm = some ⟨tt - 5 * nsPerMin, ts + nsPerSec, true⟩)
    ∧ (∀ (dk : List String) (tf : String) (targetRows sourceRows : List Record)
        (bs : Nat) (w : RealtimeWindow),
        realtimeWindow now tm sm = some w →
        countNewRecords tf sourceRows w.Start w.End = 0 →
        realtimeIncrementalSync dk tf now tm sm targetRows sourceRows bs = ([], 0)) := by
  refine ⟨?_, ?_, ?_, ?_⟩
  · rintro ts h1 rfl h2
    simp [realtimeWindow, h1, h2]
  · rintro tt ts rfl rfl h1 h2 hle
    have hnf : ¬ ts < tt := by omega
    simp [realtimeWindow, h1, h2, hnf]
  · rintro tt ts rfl rfl h1 h2 hlt
    simp [realtimeWindow, h1, h2, hlt]
  · intro dk tf targetRows sourceRows bs w hw hcount
    simp [realtimeIncrementalSync, hw, hcount]

/-- Witness for C2: a concrete failover configuration (source behind
target) and its window. -/
theorem claim_C2_realtime_window_witness :
    realtimeWindow 0 (some (-1000)) (some (-5000))
      = some ⟨-1000 - 5 * nsPerMin, -5000 + nsPerSec, true⟩ :=
  (claim_C2_realtime_window 0 (some (-1000)) (some (-5000))).2.2.1 (-1000) (-5000)
    rfl rfl (by decide) (by decide) (by decide)

/-! ## Association-list lemmas (map assignment / file system) -/

theorem find?_map_set {β : Type} (k : String) (v : β) : ∀ m : List (String × β),
    (m.map (fun p => if p.1 == k then (k, v) else p)).find? (fun p => p.1 == k)
      = if m.any (fun p => p.1 == k) then some (k, v) else none := by
  intro m
  induction m with
  | nil => simp
  | cons p m' ih =>
    by_cases hp : p.1 = k
    · simp [List.find?_cons, hp, -List.find?_map]
    · have hb : (p.1 == k) = false := by simp [hp]
      simp only [List.any_cons, List.map_cons]
      simp only [hb]
      simp only [Bool.false_or]
      simp [List.find?_cons, hp, hb, -List.find?_map] at ih ⊢
      exact ih

theorem find?_no_match_append {β : Type} (k : String) (v : β) : ∀ m : List (String × β),
    m.find? (fun p => p.1 == k) = none →
    (m ++ [(k, v)]).find? (fun p => p.1 == k) = some (k, v) := by
  intro m
  induction m with
  | nil => intro _; simp [List.find?_cons]
  | cons p m' ih =>
    intro h
    by_cases hp : p.1 = k
    · simp [List.find?_cons, hp, -List.find?_eq_none] at h
    · simp only [List.cons_append]
      simp [List.find?_cons, hp, -List.find?_eq_none, -List.find?_append] at h ⊢
      exact ih h

theorem alistGet_set_self {β : Type} (m : List (String × β)) (k : String) (v : β) :
    alistGet (alistSet m k v) k = some v := by
  unfold alistSet alistGet
  by_cases hany : m.any (fun p => p.1 == k) = true
  · rw [if_pos hany, find?_map_set, if_pos hany]
    rfl
  · rw [if_neg hany]
    have hnone : m.find? (fun p => p.1 == k) = none := by
      rw [List.find?_eq_none]
      intro x hx hpx
      exact hany (List.any_eq_true.mpr ⟨x, hx, hpx⟩)
    rw [find?_no_match_append k v m hnone]
    rfl

theorem find?_map_set_other {β : Type} (k : String) (v : β) (q : String) (hqk : q ≠ k) :
    ∀ m : List (String × β),
      (m.map (fun p => if p.1 == k then (k, v) else p)).find? (fun p => p.1 == q)
        = m.find? (fun p => p.1 == q) := by
  intro m
  have hkq : k ≠ q := fun h => hqk h.symm
  induction m with
  | nil => simp
  | cons p m' ih =>
    by_cases hp : p.1 = k
    · simp [List.find?_cons, hp, hkq, -List.find?_map] at ih ⊢
      exact ih
    · by_cases hq : p.1 = q
      · simp [List.find?_cons, hp, hq, hkq, hqk, -List.find?_map]
      · simp [List.find?_cons, hp, hq, -List.find?_map] at ih ⊢
        exact ih

theorem find?_append_single_other {β : Type} (k : String) (v : β) (q : String)
    (hqk : q ≠ k) : ∀ m : List (String × β),
      (m ++ [(k, v)]).find? (fun p => p.1 == q) = m.find? (fun p => p.1 == q) := by
  intro m
  have hkq : k ≠ q := fun h => hqk h.symm
  induction m with
  | nil => simp [List.find?_cons, hkq]
  | cons p m' ih =>
    by_cases hq : p.1 = q
    · simp [List.find?_cons, hq, -List.find?_append]
    · simp only [List.cons_append]
      simp [List.find?_cons, hq, -List.find?_append]
      exact ih

theorem alistGet_set_other {β : Type} (m : List (String × β)) (k : String) (v : β)
    (q : String) (hqk : q ≠ k) : alistGet (alistSet m k v) q = alistGet m q := by
  unfold alistSet alistGet
  by_cases hany : m.any (fun p => p.1 == k) = true
  · rw [if_pos hany, find?_map_set_other k v q hqk]
  · rw [if_neg hany, find?_append_single_other k v q hqk]

theorem alistGet_remove_self {β : Type} (m : List (String × β)) (k : String) :
    alistGet (alistRemove m k) k = none := by
  unfold alistRemove alistGet
  have : (m.filter (fun p => !(p.1 == k))).find? (fun p => p.1 == k) = none := by
    rw [List.find?_eq_none]
    intro x hx
    have := (List.mem_filter.mp hx).2
    simp only [Bool.not_eq_true'] at this
    simp [this]
  rw [this]
  rfl

theorem alistGet_some_of_any {β : Type} (m : List (String × β)) (k : String)
    (hany : m.any (fun p => p.1 == k) = true) : ∃ v, alistGet m k = some v := by
  obtain ⟨x, hx, hpx⟩ := List.any_eq_true.mp hany
  unfold alistGet
  cases hfind : m.find? (fun p => p.1 == k) with
  | none =>
    rw [List.find?_eq_none] at hfind
    exact absurd hpx (hfind x hx)
  | some p => exact ⟨p.2, rfl⟩

/-! ## Checkpoint persistence -/

theorem saveStateUnlocked_fst (marshal : SyncState → String) (stateFile : String)
    (st : SyncState) (nowWall : Int) (fs : FS) (writeOk renameOk : Bool) :
    (saveStateUnlocked marshal stateFile st nowWall fs writeOk renameOk).1
      = { st with lastUpdated := nowWall } := by
  cases writeOk <;> cases renameOk <;> rfl

theorem saveStateUnlocked_fs_of_writeFail (marshal : SyncState → String)
    (stateFile : String) (st : SyncState) (nowWall : Int) (fs : FS) (renameOk : Bool) :
    (saveStateUnlocked marshal stateFile st nowWall fs false renameOk).2.1 = fs := by
  cases renameOk <;> rfl

theorem saveStateUnlocked_fs_of_renameFail (marshal : SyncState → String)
    (stateFile : String) (st : SyncState) (nowWall : Int) (fs : FS) :
    (saveStateUnlocked marshal stateFile st nowWall fs true false).2.1
      = fsWrite fs (stateFile ++ ".tmp") (marshal { st with lastUpdated := nowWall }) := rfl

theorem saveStateUnlocked_fs_ok (marshal : SyncState → String)
    (stateFile : String) (st : SyncState) (nowWall : Int) (fs : FS) :
    (saveStateUnlocked marshal stateFile st nowWall fs true true).2.1
      = fsRename (fsWrite fs (stateFile ++ ".tmp") (marshal { st with lastUpdated := nowWall }))
          (stateFile ++ ".tmp") stateFile := rfl

theorem any_of_alistGet_some {β : Type} (m : List (String × β)) (k : String) (v : β)
    (h : alistGet m k = some v) : m.any (fun p => p.1 == k) = true := by
  unfold alistGet at h
  cases hfind : m.find? (fun p => p.1 == k) with
  | none => rw [hfind] at h; cases h
  | some p =>
    have hp := List.find?_some hfind
    have hm := List.mem_of_find?_eq_some hfind
    exact List.any_eq_true.mpr ⟨p, hm, hp⟩

/-- A state file path never equals its own `.tmp` sibling. -/
theorem tmp_ne_stateFile (stateFile : String) : stateFile ++ ".tmp" ≠ stateFile := by
  intro h
  have hlen := congrArg String.length h
  rw [String.length_append] at hlen
  have h4 : (".tmp" : String).length = 4 := rfl
  omega

/-- The in-memory state `MarkSegmentCompleted` hands to the persist step
(and returns): the table entry updated from its previous value (or the
freshly created `in_progress` entry), the document stamp bumped. -/
theorem MarkSegmentCompleted_fst (marshal : SyncState → String) (stateFile : String)
    (st : SyncState) (tbl : String) (seg : TimeSegment) (cnt nowWall : Int)
    (fs : FS) (writeOk renameOk : Bool) :
    (MarkSegmentCompleted marshal stateFile st tbl seg cnt nowWall fs writeOk renameOk).1
      = { st with
            lastUpdated := nowWall,
            tables := tablesSet
              ((if st.tables.any (fun p => p.1 == tbl) then st.tables
                else tablesSet st.tables tbl ⟨"in_progress", goZeroTime, 0, []⟩)) tbl
              { status := ((tablesGet st.tables tbl).getD
                  ⟨"in_progress", goZeroTime, 0, []⟩).status,
                lastSyncedTime := nowWall,
                recordsSynced := ((tablesGet st.tables tbl).getD
                  ⟨"in_progress", goZeroTime, 0, []⟩).recordsSynced + cnt,
                completedSegments := ((tablesGet st.tables tbl).getD
                  ⟨"in_progress", goZeroTime, 0, []⟩).completedSegments ++ [seg] } } := by
  cases hget : tablesGet st.tables tbl with
  | none =>
    have hany : st.tables.any (fun p => p.1 == tbl) = false := by
      by_contra hx
      obtain ⟨v, hv⟩ := alistGet_some_of_any st.tables tbl
        ((Bool.not_eq_false _).mp hx)
      rw [show tablesGet st.tables tbl = alistGet st.tables tbl from rfl] at hget
      rw [hget] at hv
      cases hv
    have hg2 : tablesGet (tablesSet st.tables tbl ⟨"in_progress", goZeroTime, 0, []⟩) tbl
        = some ⟨"in_progress", goZeroTime, 0, []⟩ :=
      alistGet_set_self st.tables tbl _
    unfold MarkSegmentCompleted
    rw [saveStateUnlocked_fst]
    simp only [hany, Bool.false_eq_true, if_false, hg2, Option.getD_some, hget,
      Option.getD_none]
  | some t =>
    have hany : st.tables.any (fun p => p.1 == tbl) = true :=
      any_of_alistGet_some st.tables tbl t hget
    unfold MarkSegmentCompleted
    rw [saveStateUnlocked_fst]
    simp only [hany, if_true, hget, Option.getD_some]

/-- **C5 counterexample** — a failed persist does *not* surface to the
caller of `MarkSegmentCompleted`: at a concrete state with the tmp-file
write failing, `saveStateUnlocked` itself returns an error, yet
`MarkSegmentCompleted` (a method with no return value, which discards that
error) hands the caller the updated in-memory state and the unchanged file
system with no error indication. -/
theorem claim_C5_checkpoint_counterexample :
    (saveStateUnlocked (fun _ => "doc") "state.json"
        ⟨"run", 0, 0, [("tbl", ⟨"in_progress", goZeroTime, 3, []⟩)]⟩ 7 [] false true).2.2
      = some "write error"
    ∧ MarkSegmentCompleted (fun _ => "doc") "state.json"
        ⟨"run", 0, 0, []⟩ "tbl" ⟨0, 1⟩ 3 7 [] false true
      = (⟨"run", 0, 7, [("tbl", ⟨"in_progress", 7, 3, [⟨0, 1⟩]⟩)]⟩, []) :=
  ⟨rfl, rfl⟩

/-- **C5 amended** — `MarkSegmentCompleted` appends the segment to the
table's completed list, adds the count, bumps the wall time, and then
attempts the atomic persist (write `<path>.tmp`, rename over `<path>`):
on success the document lands at `<path>` with the tmp file gone; a write
failure leaves the file system untouched; in every case the in-memory
state update survives and the persist error is discarded inside
`MarkSegmentCompleted` rather than surfaced to its caller. -/
theorem claim_C5_amended_mark_segment_completed (marshal : SyncState → String)
    (stateFile : String) (st : SyncState) (tbl : String) (seg : TimeSegment)
    (cnt nowWall : Int) (fs : FS) (writeOk renameOk : Bool) :
    (tablesGet
        (MarkSegmentCompleted marshal stateFile st tbl seg cnt nowWall fs writeOk renameOk).1.tables
        tbl
      = some
        { status := ((tablesGet st.tables tbl).getD
            ⟨"in_progress", goZeroTime, 0, []⟩).status,
          lastSyncedTime := nowWall,
          recordsSynced := ((tablesGet st.tables tbl).getD
            ⟨"in_progress", goZeroTime, 0, []⟩).recordsSynced + cnt,
          completedSegments := ((tablesGet st.tables tbl).getD
            ⟨"in_progress", goZeroTime, 0, []⟩).completedSegments ++ [seg] })
    ∧ (MarkSegmentCompleted marshal stateFile st tbl seg cnt nowWall fs writeOk renameOk).1.lastUpdated
        = nowWall
    ∧ (writeOk = false →
        (MarkSegmentCompleted marshal stateFile st tbl seg cnt nowWall fs writeOk renameOk).2 = fs)
    ∧ (writeOk = true → renameOk = false →
        (MarkSegmentCompleted marshal stateFile st tbl seg cnt nowWall fs writeOk renameOk).2
          = fsWrite fs (stateFile ++ ".tmp")
              (marshal (MarkSegmentCompleted marshal stateFile st tbl seg cnt nowWall fs writeOk renameOk).1))
    ∧ (writeOk = true → renameOk = true →
        (MarkSegmentCompleted marshal stateFile st tbl seg cnt nowWall fs writeOk renameOk).2
          = fsRename
              (fsWrite fs (stateFile ++ ".tmp")
                (marshal (MarkSegmentCompleted marshal stateFile st tbl seg cnt nowWall fs writeOk renameOk).1))
              (stateFile ++ ".tmp") stateFile
        ∧ fsRead (MarkSegmentCompleted marshal stateFile st tbl seg cnt nowWall fs writeOk renameOk).2 stateFile
            = some (marshal (MarkSegmentCompleted marshal stateFile st tbl seg cnt nowWall fs writeOk renameOk).1)
        ∧ fsRead (MarkSegmentCompleted marshal stateFile st tbl seg cnt nowWall fs writeOk renameOk).2
            (stateFile ++ ".tmp") = none) := by
  have hfst := MarkSegmentCompleted_fst marshal stateFile st tbl seg cnt nowWall fs writeOk renameOk
  refine ⟨?_, ?_, ?_, ?_, ?_⟩
  · rw [hfst]
    exact alistGet_set_self _ tbl _
  · rw [hfst]
  · rintro rfl
    cases renameOk <;> rfl
  · rintro rfl rfl
    rfl
  · rintro rfl rfl
    refine ⟨rfl, ?_, ?_⟩
    · show fsRead (fsRename (fsWrite fs (stateFile ++ ".tmp")
          (marshal (MarkSegmentCompleted marshal stateFile st tbl seg cnt nowWall fs true true).1))
          (stateFile ++ ".tmp") stateFile) stateFile
        = some (marshal (MarkSegmentCompleted marshal stateFile st tbl seg cnt nowWall fs true true).1)
      unfold fsRename
      rw [show fsRead (fsWrite fs (stateFile ++ ".tmp")
            (marshal (MarkSegmentCompleted marshal stateFile st tbl seg cnt nowWall fs true true).1))
            (stateFile ++ ".tmp")
          = some (marshal (MarkSegmentCompleted marshal stateFile st tbl seg cnt nowWall fs true true).1)
          from alistGet_set_self _ _ _]
      exact alistGet_set_self _ _ _
    · show fsRead (fsRename (fsWrite fs (stateFile ++ ".tmp")
          (marshal (MarkSegmentCompleted marshal stateFile st tbl seg cnt nowWall fs true true).1))
          (stateFile ++ ".tmp") stateFile) (stateFile ++ ".tmp") = none
      unfold fsRename
      rw [show fsRead (fsWrite fs (stateFile ++ ".tmp")
            (marshal (MarkSegmentCompleted marshal stateFile st tbl seg cnt nowWall fs true true).1))
            (stateFile ++ ".tmp")
          = some (marshal (MarkSegmentCompleted marshal stateFile st tbl seg cnt nowWall fs true true).1)
          from alistGet_set_self _ _ _]
      rw [show fsRead (fsWrite (fsRemove (fsWrite fs (stateFile ++ ".tmp")
              (marshal (MarkSegmentCompleted marshal stateFile st tbl seg cnt nowWall fs true true).1))
              (stateFile ++ ".tmp")) stateFile
              (marshal (MarkSegmentCompleted marshal stateFile st tbl seg cnt nowWall fs true true).1))
            (stateFile ++ ".tmp")
          = fsRead (fsRemove (fsWrite fs (stateFile ++ ".tmp")
              (marshal (MarkSegmentCompleted marshal stateFile st tbl seg cnt nowWall fs true true).1))
              (stateFile ++ ".tmp")) (stateFile ++ ".tmp")
          from alistGet_set_other _ _ _ _ (tmp_ne_stateFile stateFile)]
      exact alistGet_remove_self _ _

/-- Witness for the amended C5 at a concrete successful persist. -/
theorem claim_C5_amended_mark_segment_completed_witness :
    fsRead (MarkSegmentCompleted (fun _ => "doc") "state.json"
        ⟨"run", 0, 0, []⟩ "tbl" ⟨0, 1⟩ 3 7 [] true true).2 "state.json" = some "doc" :=
  ((claim_C5_amended_mark_segment_completed (fun _ => "doc") "state.json"
      ⟨"run", 0, 0, []⟩ "tbl" ⟨0, 1⟩ 3 7 [] true true).2.2.2.2 rfl rfl).2.1

/-! ## Catch-up window resolution -/

/-- **C6 counterexample** — the claim's "`target_max + 1ms` when target_max
is valid" reads validity as the spec's predicate (`≤ now + 24h`), but the
code validates the target probe against `endTime + 24h` (strictly).  With
`now = 0`, a configured end 100 days out and a target probe 30 hours in the
future — invalid per the spec's predicate, so the claim demands the
fallback start `max(source_min, now − fallback_days) = 0` — the code
instead anchors the window at `target_max + 1ms`. -/
theorem claim_C6_catchup_counterexample :
    specTimeDefined 0 (some 108000000000000) = false
    ∧ determineTimeRange none (some 8640000000000000) true 10 0 none
        (some 108000000000000) (some 0) (some 0)
      = .ok ⟨108000001000000, 8640000000000000⟩
    ∧ determineTimeRange none (some 8640000000000000) true 10 0 none
        (some 108000000000000) (some 0) (some 0)
      ≠ .ok ⟨0, 8640000000000000⟩ := by
  refine ⟨by decide, rfl, ?_⟩
  intro h
  rw [show determineTimeRange none (some 8640000000000000) true 10 0 none
      (some 108000000000000) (some 0) (some 0)
      = Except.ok (⟨108000001000000, 8640000000000000⟩ : TimeRange) from rfl] at h
  simp only [Except.ok.injEq, TimeRange.mk.injEq] at h
  omega

/-- **C6 amended** — Catch-up window resolution: `W_end` is the configured
end when present, else `source_max + 1s` when the source probe passes the
strict validity check against `now + 24h`, else `SourceTableEmpty`.  Under
auto-detect, `W_start` is `target_max + 1ms` when the target probe is
non-null and lies strictly inside `(1900-01-01, W_end + 24h)`; otherwise it
is `max(source_min, now − fallback_days)`, with `SourceTableEmpty` when
either component of the source `MIN`/`MAX` probe is null.  With auto-detect
off and a configured start, the configured start is used verbatim.  When
`W_start ≥ W_end` the sync is a no-op (empty segment plan). -/
theorem claim_C6_amended_catchup_window (cfgStart cfgEnd : Option Int)
    (autoDetect : Bool) (fallbackDays now : Int)
    (srcMaxProbe tgtMaxProbe srcMinProbe srcMaxProbe2 : Option Int) :
    (cfgEnd = none → srcMaxProbe = none →
        determineTimeRange cfgStart cfgEnd autoDetect fallbackDays now
          srcMaxProbe tgtMaxProbe srcMinProbe srcMaxProbe2
        = .error .sourceTableEmpty)
    ∧ (∀ t : Int, cfgEnd = none → srcMaxProbe = some t →
        ¬(minValidTime < t ∧ t < now + 24 * nsPerHour) →
        determineTimeRange cfgStart cfgEnd autoDetect fallbackDays now
          srcMaxProbe tgtMaxProbe srcMinProbe srcMaxProbe2
        = .error .sourceTableEmpty)
    ∧ (∀ endTime : Int,
        (cfgEnd = some endTime
          ∨ (cfgEnd = none ∧ ∃ t, srcMaxProbe = some t ∧ minValidTime < t
              ∧ t < now + 24 * nsPerHour ∧ endTime = t + nsPerSec)) →
        ((autoDetect = true → ∀ tt : Int, tgtMaxProbe = some tt →
            minValidTime < tt → tt < endTime + 24 * nsPerHour →
            determineTimeRange cfgStart cfgEnd autoDetect fallbackDays now
              srcMaxProbe tgtMaxProbe srcMinProbe srcMaxProbe2
            = .ok ⟨tt + nsPerMs, endTime⟩)
         ∧ (autoDetect = true →
            (∀ tt : Int, tgtMaxProbe = some tt →
              ¬(minValidTime < tt ∧ tt < endTime + 24 * nsPerHour)) →
            ∀ mn t2 : Int, srcMinProbe = some mn → srcMaxProbe2 = some t2 →
            determineTimeRange cfgStart cfgEnd autoDetect fallbackDays now
              srcMaxProbe tgtMaxProbe srcMinProbe srcMaxProbe2
            = .ok ⟨max mn (now - fallbackDays * nsPerDay), endTime⟩)
         ∧ (autoDetect = true →
            (∀ tt : Int, tgtMaxProbe = some tt →
              ¬(minValidTime < tt ∧ tt < endTime + 24 * nsPerHour)) →
            (srcMinProbe = none ∨ srcMaxProbe2 = none) →
            determineTimeRange cfgStart cfgEnd autoDetect fallbackDays now
              srcMaxProbe tgtMaxProbe srcMinProbe srcMaxProbe2
            = .error .sourceTableEmpty)
         ∧ (autoDetect = false → ∀ s : Int, cfgStart = some s →
            determineTimeRange cfgStart cfgEnd autoDetect fallbackDays now
              srcMaxProbe tgtMaxProbe srcMinProbe srcMaxProbe2
            = .ok ⟨s, endTime⟩)))
    ∧ (∀ (dailySegmentation : Bool) (off : Int) (tr : TimeRange),
        determineTimeRange cfgStart cfgEnd autoDetect fallbackDays now
          srcMaxProbe tgtMaxProbe srcMinProbe srcMaxProbe2 = .ok tr →
        tr.End ≤ tr.Start →
        incrementalSyncPlan dailySegmentation off cfgStart cfgEnd autoDetect
          fallbackDays now srcMaxProbe tgtMaxProbe srcMinProbe srcMaxProbe2
        = .ok []) := by
  refine ⟨?_, ?_, ?_, ?_⟩
  · rintro rfl rfl
    rfl
  · rintro t rfl rfl hinv
    simp [determineTimeRange, hinv]
  · rintro endTime hend
    have hred : determineTimeRange cfgStart cfgEnd autoDetect fallbackDays now
        srcMaxProbe tgtMaxProbe srcMinProbe srcMaxProbe2
        = determineTimeRange cfgStart (some endTime) autoDetect fallbackDays now
          srcMaxProbe tgtMaxProbe srcMinProbe srcMaxProbe2 := by
      rcases hend with hcfg | ⟨hcfg, t, hsrc, h1, h2, hET⟩
      · rw [hcfg]
      · subst hcfg
        subst hsrc
        subst hET
        simp [determineTimeRange, h1, h2]
    rw [hred]
    refine ⟨?_, ?_, ?_, ?_⟩
    · rintro rfl tt rfl hv1 hv2
      simp [determineTimeRange, hv1, hv2]
    · rintro rfl hinv mn t2 rfl rfl
      have hmax : (if now - fallbackDays * nsPerDay < mn then mn
          else now - fallbackDays * nsPerDay) = max mn (now - fallbackDays * nsPerDay) := by
        rcases lt_or_ge (now - fallbackDays * nsPerDay) mn with h | h
        · rw [if_pos h, max_eq_left (le_of_lt h)]
        · rw [if_neg (not_lt.mpr h), max_eq_right h]
      cases tgtMaxProbe with
      | none =>
        simp [determineTimeRange]
        split
        · rename_i h
          rw [max_eq_left (le_of_lt h)]
        · rename_i h
          rw [max_eq_right (not_lt.mp h)]
      | some tt =>
        have hn := hinv tt rfl
        have hb : (decide (minValidTime < tt)
            && decide (tt < endTime + 24 * nsPerHour)) = false := by
          rcases not_and_or.mp hn with h | h <;>
            simp [decide_eq_false_iff_not.mpr h]
        simp [determineTimeRange, hn, hb]
        split
        · rename_i h
          rw [max_eq_left (le_of_lt h)]
        · rename_i h
          rw [max_eq_right (not_lt.mp h)]
    · rintro rfl hinv hnone
      cases tgtMaxProbe with
      | none =>
        rcases hnone with rfl | rfl
        · simp [determineTimeRange]
        · cases srcMinProbe <;> simp [determineTimeRange]
      | some tt =>
        have hn := hinv tt rfl
        have hb : (decide (minValidTime < tt)
            && decide (tt < endTime + 24 * nsPerHour)) = false := by
          rcases not_and_or.mp hn with h | h <;>
            simp [decide_eq_false_iff_not.mpr h]
        rcases hnone with rfl | rfl
        · simp [determineTimeRange, hn, hb]
        · cases srcMinProbe <;> simp [determineTimeRange, hn, hb]
    · rintro rfl s rfl
      simp [determineTimeRange]
  · intro ds off tr htr hle
    unfold incrementalSyncPlan
    rw [htr]
    show (if tr.Start < tr.End then Except.ok (segmentTimeRange ds off tr)
        else Except.ok []) = Except.ok []
    rw [if_neg (by omega : ¬ tr.Start < tr.End)]

/-- Witness for the amended C6: auto-detect off with a configured start. -/
theorem claim_C6_amended_catchup_window_witness :
    determineTimeRange (some 5) (some 100) false 30 0 none none none none
      = .ok ⟨5, 100⟩ :=
  ((claim_C6_amended_catchup_window (some 5) (some 100) false 30 0
      none none none none).2.2.1 100 (Or.inl rfl)).2.2.2 rfl 5 rfl

/-! ## Insert-time type coercion -/

/-- **C9 counterexample** — two divergences from the claim at concrete
inputs.  (1) The claim says coercion uses the *target*-schema type tag, but
`NewUniversalSyncer` builds `colTypeMap` from `DetectTableSchema(sourceDB)`:
with source tag `DateTime` and target tag `String`, an 1850 timestamp is
rewritten to 1970 by the syncer even though the target tag demands
pass-through.  (2) The claim's replacement interval ends at `2262-04-11`
(midnight); the code's bound is `2262-04-11T23:47:16`, so a value at
`2262-04-11T12:00:00` — outside the claim's interval, hence to be replaced —
passes through unchanged. -/
theorem claim_C9_coercion_counterexample :
    insertBatchCell (newUniversalSyncerColTypeMap [⟨"c", "DateTime"⟩] [⟨"c", "String"⟩]) "c"
        [("c", GoValue.vtime (-3786825600000000000) 0)]
      = GoValue.vtime 0 0
    ∧ insertBatchCell (colTypeMapOf [⟨"c", "String"⟩]) "c"
        [("c", GoValue.vtime (-3786825600000000000) 0)]
      = GoValue.vtime (-3786825600000000000) 0
    ∧ coerceValue "DateTime" (GoValue.vtime 9223329600000000000 0)
      = GoValue.vtime 9223329600000000000 0 :=
  ⟨rfl, rfl, rfl⟩

/-- **C9 amended** — Type coercion at insert time never fails and is
applied per column using the *source*-schema type tag (the schema
`NewUniversalSyncer` detects over the source connection): for
timestamp-typed columns a value before 1900-01-01, after
2262-04-11T23:47:16, or equal to the zero time is replaced by
1970-01-01T00:00:00Z; for decimal-typed columns a parseable string or byte
string becomes an arbitrary-precision decimal while an unparseable string
passes through unchanged; columns without a tag and all other values pass
through unchanged, and every row of a batch yields a values tuple. -/
theorem claim_C9_amended_type_coercion (srcSchema tgtSchema : List ColumnInfo)
    (colType : String) (v : GoValue) :
    newUniversalSyncerColTypeMap srcSchema tgtSchema = colTypeMapOf srcSchema
    ∧ (strContains colType "DateTime" = true → ∀ t off : Int,
        coerceValue colType (.vtime t off)
          = if t < minValidTime ∨ coerceMaxTime < t ∨ t = goZeroTime
            then .vtime epoch1970 0 else .vtime t off)
    ∧ (strContains colType "Decimal" = true →
        ∀ (s : String) (d : Int × Int), parseDecimalGo s = some d →
        coerceValue colType (.vstring s) = .vdecimal d.1 d.2
        ∧ coerceValue colType (.vbytes s) = .vdecimal d.1 d.2)
    ∧ (∀ s : String, parseDecimalGo s = none →
        coerceValue colType (.vstring s) = .vstring s
        ∧ coerceValue colType (.vbytes s) = .vbytes s)
    ∧ (strContains colType "Decimal" = false → strContains colType "DateTime" = false →
        coerceValue colType v = v)
    ∧ (∀ (ctm : List (String × String)) (col : String) (record : Record),
        colTypeLookup ctm col = none → insertBatchCell ctm col record = goMapGet record col)
    ∧ (∀ (ctm : List (String × String)) (columns : List String) (batch : List Record),
        (insertBatchValues ctm columns batch).length = batch.length) := by
  refine ⟨rfl, ?_, ?_, ?_, ?_, ?_, ?_⟩
  · intro hdt t off
    by_cases hdec : strContains colType "Decimal" = true
    · simp [coerceValue, hdec, hdt, or_assoc]
    · simp only [Bool.not_eq_true] at hdec
      simp [coerceValue, hdec, hdt, or_assoc]
  · intro hdec s d hparse
    constructor <;> simp [coerceValue, hdec, hparse]
  · intro s hparse
    by_cases hdec : strContains colType "Decimal" = true
    · by_cases hdt : strContains colType "DateTime" = true
      · constructor <;> simp [coerceValue, hdec, hdt, hparse]
      · simp only [Bool.not_eq_true] at hdt
        constructor <;> simp [coerceValue, hdec, hdt, hparse]
    · simp only [Bool.not_eq_true] at hdec
      by_cases hdt : strContains colType "DateTime" = true
      · constructor <;> simp [coerceValue, hdec, hdt, hparse]
      · simp only [Bool.not_eq_true] at hdt
        constructor <;> simp [coerceValue, hdec, hdt, hparse]
  · intro hdec hdt
    cases v <;> simp [coerceValue, hdec, hdt]
  · intro ctm col record hnone
    simp [insertBatchCell, hnone]
  · intro ctm columns batch
    simp [insertBatchValues]

/-- Witness for the amended C9: an out-of-range timestamp in a
`DateTime64(3)` column is replaced by the epoch. -/
theorem claim_C9_amended_type_coercion_witness :
    coerceValue "DateTime64(3)" (GoValue.vtime (-3786825600000000000) 0)
      = GoValue.vtime 0 0 := by
  rw [(claim_C9_amended_type_coercion [] [] "DateTime64(3)" GoValue.vnull).2.1 rfl
    (-3786825600000000000) 0, if_pos (Or.inl (by decide))]
  rfl

end ChSync
